import Mathlib

/-!
Verification of the ingestion-to-context pipeline of the Financial-Document
question-answering repository.

Python strings are modelled as `List Char` in the chunking layer (Python
`len` counts code points, as does `List.length`), and as Lean `String` in
the prompt-assembly layer, where contents are opaque.  Python `int` is
modelled as `Int`; floating-point similarity scores are modelled as exact
rationals `ℚ` — the ranking logic under study (argsort, reversal, cutoff,
positivity filter) only inspects the order structure of the scores.

Sources embedded below:
  - `src/document_processor.py`: `normalize_numeric_tokens`, `chunk_text_blocks`
  - `src/qa.py`: `Retriever.__init__`/`Retriever.top_k`, `call_ollama_cli`,
    `make_prompt`, `answer_question`
-/

namespace FinDoc

/-- Characters stripped by Python `str.strip()` (ASCII whitespace). -/
def isPySpace (c : Char) : Bool :=
  c = ' ' || c = '\t' || c = '\n' || c = '\r' || c = '\x0b' || c = '\x0c'

/-- Python `str.strip()`: drop leading and trailing whitespace. -/
def stripChars (l : List Char) : List Char :=
  ((l.dropWhile isPySpace).reverse.dropWhile isPySpace).reverse

/-- Normalize one Python slice bound against a string of length `n`:
negative indices count from the end, and bounds are clamped into `[0, n]`. -/
def pyBound (n : Nat) (i : Int) : Nat :=
  (min (if i < 0 then i + n else i) n).toNat

/-- Python `s[a:b]` for a string of characters (step 1). -/
def pySlice (l : List Char) (a b : Int) : List Char :=
  (l.take (pyBound l.length b)).drop (pyBound l.length a)

/-- Is the previous character (when there is one) a digit? -/
def oDigit : Option Char → Bool
  | some c => c.isDigit
  | none => false

/-- Is the first character (when there is one) a digit? -/
def hdDigit : List Char → Bool
  | c :: _ => c.isDigit
  | [] => false

/-- Scanner for `re.sub(r'(?<=\d),(?=\d)', '', text)`: a comma is dropped
exactly when the character before it (in the input) and the character after
it are both digits; `prev` carries the previous input character, matching the
zero-width lookbehind, which inspects the original text. -/
def normAux : Option Char → List Char → List Char
  | _, [] => []
  | prev, c :: rest =>
    if c = ',' && oDigit prev && hdDigit rest then normAux (some c) rest
    else c :: normAux (some c) rest

/-- `normalize_numeric_tokens` from `src/document_processor.py`. -/
def normalize_numeric_tokens (l : List Char) : List Char :=
  normAux none l

/-- Start positions taken by the windowing loop of `chunk_text_blocks`
(the loop body at `src/document_processor.py:80-84`), instrumented to record
each window start instead of the window's text.  `fuel` bounds the number of
iterations; the `Bool` is `true` when the loop exited by its own condition
within `fuel` iterations. -/
def windowStarts (L : Nat) (maxChars overlap : Int) : Int → Nat → List Int × Bool
  | _, 0 => ([], false)
  | start, fuel + 1 =>
    if start < (L : Int) then
      let e := start + maxChars
      let r := windowStarts L maxChars overlap (max 0 (e - overlap)) fuel
      (start :: r.1, r.2)
    else ([], true)

/-- The windowing loop of `chunk_text_blocks`, emitting `block[start:end].strip()`
for each window, exactly as the Python loop appends chunks. -/
def chunkLoop (block : List Char) (maxChars overlap : Int) : Int → Nat → List (List Char) × Bool
  | _, 0 => ([], false)
  | start, fuel + 1 =>
    if start < (block.length : Int) then
      let e := start + maxChars
      let r := chunkLoop block maxChars overlap (max 0 (e - overlap)) fuel
      (stripChars (pySlice block start e) :: r.1, r.2)
    else ([], true)

/-- Per-block body of `chunk_text_blocks`: strip, skip empty, normalize,
emit whole when short enough, otherwise run the windowing loop. -/
def chunkBlock (block : List Char) (maxChars overlap : Int) (fuel : Nat) :
    List (List Char) × Bool :=
  let b := stripChars block
  if b.isEmpty then ([], true)
  else
    let b := normalize_numeric_tokens b
    if (b.length : Int) ≤ maxChars then ([b], true)
    else chunkLoop b maxChars overlap 0 fuel

/-- `chunk_text_blocks` from `src/document_processor.py`.  A `false` flag
means some block's windowing loop had not exited after `fuel` iterations —
the Python loop at that point is still running (and any later blocks are
unreached), so `∀ fuel, flag = false` is non-termination of the Python code. -/
def chunk_text_blocks (text_blocks : List (List Char)) (maxChars overlap : Int)
    (fuel : Nat) : List (List Char) × Bool :=
  match text_blocks with
  | [] => ([], true)
  | b :: rest =>
    let r := chunkBlock b maxChars overlap fuel
    if r.2 then
      let s := chunk_text_blocks rest maxChars overlap fuel
      (r.1 ++ s.1, s.2)
    else r

/-- The (total pre)order by which a stable ascending argsort of `sims` lays
out positions: compare scores, break score ties by ascending position —
numpy's stable argsort returns exactly the positions sorted by this key. -/
def keyLE (sims : List ℚ) (i j : Nat) : Prop :=
  sims.getD i 0 < sims.getD j 0 ∨ (sims.getD i 0 = sims.getD j 0 ∧ i ≤ j)

instance (sims : List ℚ) : DecidableRel (keyLE sims) := fun i j => by
  unfold keyLE; infer_instance

/-- One deterministic, executable instance of `np.argsort(sims)`: positions
`0..len-1` sorted ascending by score, score ties in ascending position
order.  numpy's default `kind='quicksort'` is NOT stable, so for large tie
groups the real tie order is unspecified; every general theorem about the
order of tied hits is therefore stated over an arbitrary score-ascending
permutation (see `topKFromIdx_score_mono`), and this stable instance is
used only to run the selection code on concrete inputs small enough that
numpy's sort is an insertion sort and agrees with it. -/
def argsortAsc (sims : List ℚ) : List Nat :=
  List.insertionSort (keyLE sims) (List.range sims.length)

/-- Lines 23-24 of `src/qa.py` applied to a similarity row `sims` and the
index array `idx` produced by `np.argsort(sims)`:
`idx = np.argsort(sims)[::-1][:k]` followed by
`[(int(i), float(sims[i])) for i in idx if sims[i] > 0]`.  Keeping `idx` a
parameter lets theorems quantify over every argsort output (any
score-ascending permutation), independent of the unstable sort's tie
order. -/
def topKFromIdx (sims : List ℚ) (idx : List Nat) (k : Nat) : List (Nat × ℚ) :=
  ((idx.reverse).take k).filterMap fun i =>
    if 0 < sims.getD i 0 then some (i, sims.getD i 0) else none

/-- Lines 22-24 of `src/qa.py` on a concrete similarity row, with the
stable argsort instance supplying the index array. -/
def topKFromSims (sims : List ℚ) (k : Nat) : List (Nat × ℚ) :=
  topKFromIdx sims (argsortAsc sims) k

/-- `Retriever` from `src/qa.py`.  The TF-IDF vectorizer and the cosine
computation (`sklearn` library calls) are abstracted into `simsOf`, the row
`cosine_similarity(qv, self.doc_vectors)[0]` of similarity scores for a
query; it has one entry per document (`sims_len`), and scores are exact
rationals in place of floats.  `__init__` sets `vectorizer = None` exactly
when `docs` is empty, which `top_k` tests first — modelled by testing
`docs.isEmpty` directly. -/
structure Retriever where
  docs : List String
  simsOf : String → List ℚ
  sims_len : ∀ q, (simsOf q).length = docs.length

/-- `Retriever.top_k` from `src/qa.py`. -/
def Retriever.top_k (r : Retriever) (query : String) (k : Nat) : List (Nat × ℚ) :=
  if r.docs.isEmpty then [] else topKFromSims (r.simsOf query) k

/-- The three ways `subprocess.run(["ollama", ...])` can come back in
`call_ollama_cli`: a completed process, `FileNotFoundError`, or
`subprocess.TimeoutExpired`.  This is the external-process input to the
function. -/
inductive OllamaRun where
  | completed (returncode : Int) (stdout stderr : String)
  | notFound
  | timedOut

/-- `call_ollama_cli` from `src/qa.py`, as a function of the subprocess
outcome: `Except.error m` models `raise RuntimeError(m)`. -/
def call_ollama_cli (run : OllamaRun) : Except String String :=
  match run with
  | .completed rc out err =>
    if rc ≠ 0 then .error ("Ollama error: " ++ err.trim) else .ok out.trim
  | .notFound =>
    .error "Ollama CLI not found. Install Ollama (https://ollama.ai/) and pull a model."
  | .timedOut => .error "Ollama call timed out."

/-- `make_prompt` from `src/qa.py` (with `instructions=None`, as
`answer_question` calls it). -/
def make_prompt (contexts : List String) (question : String) : String :=
  let header := "You are a financial document assistant. Use ONLY the provided CONTEXT to answer the question. If the requested info is not in the context, say you cannot find it and suggest what could help (specific rows/figures).\n\n"
  let ctx_text := if contexts.isEmpty then "" else String.intercalate "\n\n---\n\n" contexts
  header ++ "CONTEXT:\n" ++ ctx_text ++ "\n\nQUESTION:\n" ++ question ++ "\n\nAnswer succinctly and show numeric values when present. If multiple interpretations exist, list them."

/-- Zero-pad a residue below 1000 to three digits. -/
def pad3 (k : Nat) : String :=
  if k < 10 then "00" ++ toString k else if k < 100 then "0" ++ toString k else toString k

/-- The `f"{score:.3f}"` rendering of a (non-negative) score: three decimal
places, computed on the exact rational as `round(q * 1000) / 1000`.  Python
rounds the underlying binary float to even; the claims treat the rendered
prompt opaquely, so round-half-up on the exact rational is used. -/
def fmt3 (q : ℚ) : String :=
  let n := ((2000 * q.num + (q.den : Int)).ediv (2 * (q.den : Int))).toNat
  toString (n / 1000) ++ "." ++ pad3 (n % 1000)

/-- The context-building loop of `answer_question`: for each hit `(idx, score)`
in order it appends the string `"(score {score:.3f})\n" + docs[idx]`.  Python
indexing `docs[idx]` raises `IndexError` when out of range, modelled by `none`. -/
def contextsOf : List (Nat × ℚ) → List String → Option (List String)
  | [], _ => some []
  | p :: rest, docs =>
    match docs[p.1]?, contextsOf rest docs with
    | some d, some tl => some (("(score " ++ fmt3 p.2 ++ ")\n" ++ d) :: tl)
    | _, _ => none

/-- The fallback context entry of `answer_question` for an empty hit list. -/
def fallbackMsg : String :=
  "No relevant extracted context found. Provide the question and explain that no context exists."

/-- The prompt `answer_question` constructs before calling the model:
retrieve, annotate each hit with its score, fall back when empty, assemble. -/
def promptOf (r : Retriever) (question : String) (docs : List String) (k : Nat) :
    Option String :=
  (contextsOf (r.top_k question k) docs).map fun ctxs =>
    make_prompt (if ctxs.isEmpty then [fallbackMsg] else ctxs) question

/-- `answer_question` from `src/qa.py`.  The generation backend is the
function argument `gen` (in the source, `call_ollama_cli` closed over the
ambient Ollama installation); `except Exception as e` around the call is the
`Except.error` branch.  `none` models an `IndexError` escaping from the
context loop (cannot happen when `docs` is the list the retriever holds). -/
def answer_question (r : Retriever) (question : String) (docs : List String)
    (gen : String → Except String String) (top_k : Nat) : Option String :=
  (promptOf r question docs top_k).map fun prompt =>
    match gen prompt with
    | .ok resp => resp
    | .error e =>
      "ERROR calling Ollama: " ++ e ++ "\n\nPrompt sent (truncated):\n" ++ prompt.take 2000

/-- Substring containment, on the character lists underlying the strings. -/
def strContains (s pat : String) : Prop :=
  ∃ pre post, s.data = pre ++ pat.data ++ post

/-- A retriever over an empty corpus (`Retriever([])` in the source:
`vectorizer = None`). -/
def rEmptyCorpus : Retriever := ⟨[], fun _ => [], fun _ => rfl⟩

/-- A retriever over two identical chunks.  In the source, both documents
get identical TF-IDF vectors, so a query equal to them has cosine similarity
exactly 1.0 with each — the similarity row is `[1.0, 1.0]`. -/
def rTie : Retriever := ⟨["total revenue", "total revenue"], fun _ => [1, 1], fun _ => rfl⟩

/-- A two-document retriever whose first document matches the query and
whose second does not (similarity row `[1, 0]`). -/
def rDemo : Retriever :=
  ⟨["Total Revenue: 1234567", "Net Income: 98765"], fun _ => [1, 0], fun _ => rfl⟩

/-! ### Non-termination of the windowing loop when the window start cannot advance -/

/-- If the next window start computed from `s` is `s` itself while `s` is
still inside the block, the windowing loop of `chunk_text_blocks` revisits
the same position forever: no iteration budget makes it exit. -/
theorem chunkLoop_stuck (block : List Char) (m o s : Int)
    (hs : s < (block.length : Int)) (hfix : max 0 (s + m - o) = s) :
    ∀ fuel, (chunkLoop block m o s fuel).2 = false := by
  intro fuel
  induction fuel with
  | zero => rfl
  | succ n ih =>
    simp only [chunkLoop, if_pos hs, hfix]
    exact ih

/-! ### Idempotence of the numeric-token normalizer -/

/-- A decimal digit is not a comma. -/
theorem digit_ne_comma (d : Char) (h : d.isDigit = true) : decide (d = ',') = false := by
  by_cases hd : d = ','
  · subst hd; exact absurd h (by decide)
  · simp [hd]

/-- Scanning after a non-digit character never deletes the head of the
remainder, so the head character is preserved. -/
theorem hdDigit_normAux (c : Char) (rest : List Char) (hc : c.isDigit = false) :
    hdDigit (normAux (some c) rest) = hdDigit rest := by
  cases rest with
  | nil => rfl
  | cons d r => simp [normAux, oDigit, hc, hdDigit]

/-- Core idempotence: rescanning the output of the comma-removal scan (with
the same starting lookbehind) removes nothing further.  Every comma deleted
in the first pass sat between two digits, and digits are never deleted, so a
surviving comma keeps its original (not-both-digit) neighbours. -/
theorem normAux_idem :
    ∀ (n : Nat) (s : List Char), s.length ≤ n → ∀ prev : Option Char,
      normAux prev (normAux prev s) = normAux prev s := by
  intro n
  induction n with
  | zero =>
    intro s hs prev
    have : s = [] := List.eq_nil_of_length_eq_zero (Nat.le_zero.mp hs)
    subst this; rfl
  | succ n ih =>
    intro s hs prev
    match s with
    | [] => rfl
    | c :: rest =>
      by_cases hcond : (decide (c = ',') && oDigit prev && hdDigit rest) = true
      · -- the head comma is removed
        cases rest with
        | nil => simp [hdDigit] at hcond
        | cons d r =>
          have hd : d.isDigit = true := by
            have := (Bool.and_eq_true .. ).mp hcond
            simpa [hdDigit] using this.2
          have hdc : decide (d = ',') = false := digit_ne_comma d hd
          have hlen : r.length ≤ n := by
            simp only [List.length_cons] at hs; omega
          calc normAux prev (normAux prev (c :: d :: r))
              = normAux prev (normAux (some c) (d :: r)) := by
                rw [show normAux prev (c :: d :: r) = normAux (some c) (d :: r) from by
                  simp [normAux, hcond]]
            _ = normAux prev (d :: normAux (some d) r) := by
                simp [normAux, hdc]
            _ = d :: normAux (some d) (normAux (some d) r) := by
                simp [normAux, hdc]
            _ = d :: normAux (some d) r := by rw [ih r hlen (some d)]
            _ = normAux (some c) (d :: r) := by simp [normAux, hdc]
            _ = normAux prev (c :: d :: r) := by simp [normAux, hcond]
      · -- the head character is kept
        have hlen : rest.length ≤ n := by
          simp only [List.length_cons] at hs; omega
        have hkeep : normAux prev (c :: rest) = c :: normAux (some c) rest := by
          simp [normAux, hcond]
        have hcond2 : (decide (c = ',') && oDigit prev &&
            hdDigit (normAux (some c) rest)) = false := by
          cases h1 : decide (c = ',') with
          | false => simp [h1]
          | true =>
            cases h2 : oDigit prev with
            | false => simp [h2]
            | true =>
              have hc : c = ',' := of_decide_eq_true h1
              have hrest : hdDigit rest = false := by
                cases h3 : hdDigit rest with
                | false => rfl
                | true => exact absurd (by simp [h1, h2, h3]) hcond
              have hpres : hdDigit (normAux (some c) rest) = hdDigit rest :=
                hdDigit_normAux c rest (by subst hc; decide)
              simp [hpres, hrest]
        rw [hkeep]
        have : normAux prev (c :: normAux (some c) rest)
            = c :: normAux (some c) (normAux (some c) rest) := by
          simp [normAux, hcond2]
        rw [this, ih rest hlen (some c)]

/-! ### Chunk length bound and window coverage -/

/-- Stripping whitespace never lengthens a string. -/
theorem stripChars_length_le (l : List Char) : (stripChars l).length ≤ l.length := by
  have h1 := (List.dropWhile_sublist (l := l) isPySpace).length_le
  have h2 := (List.dropWhile_sublist (l := (l.dropWhile isPySpace).reverse) isPySpace).length_le
  simp only [stripChars, List.length_reverse] at *
  omega

/-- Python slice bounds are clamped to the string length. -/
theorem pyBound_le (n : Nat) (i : Int) : pyBound n i ≤ n := by
  unfold pyBound; split <;> omega

/-- A window `block[s : s+m]` with `s ≥ 0` holds at most `m` characters. -/
theorem pySlice_window_le (l : List Char) (s m : Int) (hs : 0 ≤ s) (hm : 0 ≤ m) :
    ((pySlice l s (s + m)).length : Int) ≤ m := by
  have h1 : (pySlice l s (s + m)).length
      = min (pyBound l.length (s + m)) l.length - pyBound l.length s := by
    simp [pySlice, List.length_drop, List.length_take]
  rw [h1]
  unfold pyBound
  split <;> split <;> omega

/-- Every chunk the windowing loop emits, at any iteration budget and from
any nonnegative window start, has at most `m` characters. -/
theorem chunkLoop_length_le (block : List Char) (m o : Int) (hm : 0 < m) :
    ∀ (fuel : Nat) (s : Int), 0 ≤ s →
      ∀ c ∈ (chunkLoop block m o s fuel).1, (c.length : Int) ≤ m := by
  intro fuel
  induction fuel with
  | zero => intro s _ c hc; simp [chunkLoop] at hc
  | succ n ih =>
    intro s hs c hc
    by_cases hlt : s < (block.length : Int)
    · simp only [chunkLoop, if_pos hlt] at hc
      rcases List.mem_cons.mp hc with hc | hc
      · subst hc
        calc ((stripChars (pySlice block s (s + m))).length : Int)
            ≤ ((pySlice block s (s + m)).length : Int) := by
              exact_mod_cast stripChars_length_le _
          _ ≤ m := pySlice_window_le block s m hs (le_of_lt hm)
      · exact ih (max 0 (s + m - o)) (le_max_left 0 _) c hc
    · simp [chunkLoop, if_neg hlt] at hc

/-- Every chunk the per-block body emits has at most `m` characters. -/
theorem chunkBlock_length_le (b : List Char) (m o : Int) (hm : 0 < m) (fuel : Nat) :
    ∀ c ∈ (chunkBlock b m o fuel).1, (c.length : Int) ≤ m := by
  intro c hc
  unfold chunkBlock at hc
  dsimp only at hc
  split at hc
  · simp at hc
  · split at hc
    · rename_i hle
      simp at hc
      subst hc
      exact hle
    · exact chunkLoop_length_le _ m o hm fuel 0 le_rfl c hc

/-- Every chunk `chunk_text_blocks` emits has at most `m` characters,
whatever the overlap and iteration budget, as long as `m > 0`. -/
theorem chunk_text_blocks_length_le (blocks : List (List Char)) (m o : Int)
    (hm : 0 < m) (fuel : Nat) :
    ∀ c ∈ (chunk_text_blocks blocks m o fuel).1, (c.length : Int) ≤ m := by
  induction blocks with
  | nil => intro c hc; simp [chunk_text_blocks] at hc
  | cons b rest ih =>
    intro c hc
    simp only [chunk_text_blocks] at hc
    split at hc
    · rcases List.mem_append.mp hc with hc | hc
      · exact chunkBlock_length_le b m o hm fuel c hc
      · exact ih c hc
    · exact chunkBlock_length_le b m o hm fuel c hc

/-- Window starts taken by the loop from start `s` within iteration budget
`fuel` cover every position `p` of the block with `s ≤ p < L`, provided the
overlap is a nonnegative number of characters smaller than the window width
and the budget is at least `L - s`. -/
theorem windowStarts_cover (L : Nat) (m o : Int) (ho : 0 ≤ o) (hom : o < m) :
    ∀ (fuel : Nat) (s p : Int), 0 ≤ s → s ≤ p → p < (L : Int) →
      (L : Int) ≤ s + fuel →
      ∃ st ∈ (windowStarts L m o s fuel).1, st ≤ p ∧ p < st + m := by
  intro fuel
  induction fuel with
  | zero => intro s p hs hsp hpL hbudget; omega
  | succ n ih =>
    intro s p hs hsp hpL hbudget
    have hlt : s < (L : Int) := lt_of_le_of_lt hsp hpL
    simp only [windowStarts, if_pos hlt]
    by_cases hwin : p < s + m
    · exact ⟨s, List.mem_cons_self _ _, hsp, hwin⟩
    · push_neg at hwin
      have hs' : (0 : Int) ≤ max 0 (s + m - o) := le_max_left 0 _
      have hsp' : max 0 (s + m - o) ≤ p := by
        have : s + m - o ≤ p := by omega
        omega
      have hbudget' : (L : Int) ≤ max 0 (s + m - o) + n := by
        have : s + 1 ≤ max 0 (s + m - o) := by omega
        push_cast at hbudget ⊢
        omega
      obtain ⟨st, hmem, h1, h2⟩ := ih (max 0 (s + m - o)) p hs' hsp' hpL hbudget'
      exact ⟨st, List.mem_cons_of_mem _ hmem, h1, h2⟩

/-! ### Order structure of the retriever's argsort-based selection -/

/-- The stable-argsort key order is total. -/
theorem keyLE_total (sims : List ℚ) : ∀ i j, keyLE sims i j ∨ keyLE sims j i := by
  intro i j
  rcases lt_trichotomy (sims.getD i 0) (sims.getD j 0) with h | h | h
  · exact Or.inl (Or.inl h)
  · rcases Nat.le_total i j with hij | hij
    · exact Or.inl (Or.inr ⟨h, hij⟩)
    · exact Or.inr (Or.inr ⟨h.symm, hij⟩)
  · exact Or.inr (Or.inl h)

/-- The stable-argsort key order is transitive. -/
theorem keyLE_trans (sims : List ℚ) :
    ∀ i j l, keyLE sims i j → keyLE sims j l → keyLE sims i l := by
  intro i j l hij hjl
  rcases hij with h1 | ⟨h1, h1'⟩ <;> rcases hjl with h2 | ⟨h2, h2'⟩
  · exact Or.inl (h1.trans h2)
  · exact Or.inl (h2 ▸ h1)
  · exact Or.inl (h1 ▸ h2)
  · exact Or.inr ⟨h1.trans h2, h1'.trans h2'⟩

/-- The argsort output is sorted by the stable key order. -/
theorem argsortAsc_sorted (sims : List ℚ) :
    (argsortAsc sims).Sorted (keyLE sims) := by
  haveI : IsTotal Nat (keyLE sims) := ⟨keyLE_total sims⟩
  haveI : IsTrans Nat (keyLE sims) := ⟨keyLE_trans sims⟩
  exact List.sorted_insertionSort (keyLE sims) (List.range sims.length)

/-- The argsort output is a permutation of the positions `0..len-1`. -/
theorem argsortAsc_perm (sims : List ℚ) :
    List.Perm (argsortAsc sims) (List.range sims.length) :=
  List.perm_insertionSort (keyLE sims) (List.range sims.length)

/-- The argsort output mentions each position at most once. -/
theorem argsortAsc_nodup (sims : List ℚ) : (argsortAsc sims).Nodup :=
  (argsortAsc_perm sims).nodup_iff.mpr (List.nodup_range _)

/-- Unpacking membership in the selected hit list: the position is a real
corpus position, the score is that position's score, and it is positive. -/
theorem mem_topKFromSims (sims : List ℚ) (k : Nat) (p : Nat × ℚ)
    (hp : p ∈ topKFromSims sims k) :
    p.1 < sims.length ∧ p.2 = sims.getD p.1 0 ∧ 0 < p.2 := by
  unfold topKFromSims topKFromIdx at hp
  obtain ⟨i, hi, hf⟩ := List.mem_filterMap.mp hp
  by_cases hpos : 0 < sims.getD i 0
  · rw [if_pos hpos] at hf
    obtain rfl := Option.some_injective _ hf
    refine ⟨?_, rfl, hpos⟩
    have : i ∈ argsortAsc sims :=
      List.mem_reverse.mp (List.mem_of_mem_take hi)
    simpa using (argsortAsc_perm sims).mem_iff.mp this
  · rw [if_neg hpos] at hf
    exact absurd hf (by simp)

/-- For EVERY index array that lists positions in ascending score order —
every possible output of `np.argsort`, whatever its unstable sort did to
tied positions — the selected hit list is ordered by non-increasing
score. -/
theorem topKFromIdx_score_mono (sims : List ℚ) (idx : List Nat) (k : Nat)
    (hsort : idx.Pairwise (fun i j => sims.getD i 0 ≤ sims.getD j 0)) :
    (topKFromIdx sims idx k).Pairwise (fun a b => b.2 ≤ a.2) := by
  have hrev : idx.reverse.Pairwise (fun i j => sims.getD j 0 ≤ sims.getD i 0) :=
    List.pairwise_reverse.mpr hsort
  have htake : (idx.reverse.take k).Pairwise
      (fun i j => sims.getD j 0 ≤ sims.getD i 0) := hrev.take
  refine htake.filterMap _ ?_
  intro a a' hrel b hb b' hb'
  by_cases ha : 0 < sims.getD a 0
  · by_cases ha' : 0 < sims.getD a' 0
    · rw [if_pos ha] at hb
      rw [if_pos ha'] at hb'
      obtain rfl := Option.mem_def.mp hb |> Option.some_injective _
      obtain rfl := Option.mem_def.mp hb' |> Option.some_injective _
      exact hrel
    · rw [if_neg ha'] at hb'
      exact absurd (Option.mem_def.mp hb') (by simp)
  · rw [if_neg ha] at hb
    exact absurd (Option.mem_def.mp hb) (by simp)

/-- The stable argsort instance lists positions in ascending score order
(forgetting its tie-break). -/
theorem argsortAsc_score_sorted (sims : List ℚ) :
    (argsortAsc sims).Pairwise (fun i j => sims.getD i 0 ≤ sims.getD j 0) :=
  (argsortAsc_sorted sims).imp fun h => by
    rcases h with h | ⟨h, _⟩
    · exact le_of_lt h
    · exact le_of_eq h

/-- The chunks the windowing loop emits are exactly the stripped window
slices at the start positions the instrumented loop records, and both run
out of budget together. -/
theorem chunkLoop_eq_windowStarts (block : List Char) (m o : Int) :
    ∀ (fuel : Nat) (s : Int),
      chunkLoop block m o s fuel
        = (((windowStarts block.length m o s fuel).1).map
            (fun st => stripChars (pySlice block st (st + m))),
           (windowStarts block.length m o s fuel).2) := by
  intro fuel
  induction fuel with
  | zero => intro s; rfl
  | succ n ih =>
    intro s
    by_cases hlt : s < (block.length : Int)
    · simp only [chunkLoop, windowStarts, if_pos hlt, ih (max 0 (s + m - o))]
      simp
    · simp [chunkLoop, windowStarts, if_neg hlt]

/-! ### Prompt assembly and the pipeline boundary -/

/-- When every hit's position is inside the document list, the context loop
completes without an index error. -/
theorem contextsOf_isSome (hits : List (Nat × ℚ)) (docs : List String)
    (h : ∀ p ∈ hits, p.1 < docs.length) : ∃ l, contextsOf hits docs = some l := by
  induction hits with
  | nil => exact ⟨[], rfl⟩
  | cons p rest ih =>
    obtain ⟨tl, htl⟩ := ih fun q hq => h q (List.mem_cons_of_mem _ hq)
    obtain ⟨d, hd⟩ : ∃ d, docs[p.1]? = some d :=
      ⟨_, List.getElem?_eq_getElem (h p (List.mem_cons_self _ _))⟩
    exact ⟨("(score " ++ fmt3 p.2 ++ ")\n" ++ d) :: tl, by simp [contextsOf, hd, htl]⟩

/-- Every hit position returned through `Retriever.top_k` is a position of
the retriever's own document list. -/
theorem top_k_index_lt (r : Retriever) (q : String) (k : Nat) (p : Nat × ℚ)
    (hp : p ∈ r.top_k q k) : p.1 < r.docs.length := by
  unfold Retriever.top_k at hp
  split at hp
  · simp at hp
  · have h := (mem_topKFromSims _ _ _ hp).1
    rwa [r.sims_len q] at h

/-- Splitting a concatenation around an occurrence of `pat` in its middle
string: the pattern occurs in the whole. -/
theorem strContains_left (A pat B tail : String) :
    strContains (A ++ pat ++ B ++ tail) pat :=
  ⟨A.data, B.data ++ tail.data, by simp⟩

/-- A string contains its final segment. -/
theorem strContains_suffix (A pat : String) : strContains (A ++ pat) pat :=
  ⟨A.data, [], by simp⟩

/-- A pattern occurring in `s` still occurs after appending on the right. -/
theorem strContains_append_right (s t pat : String) (h : strContains s pat) :
    strContains (s ++ t) pat := by
  obtain ⟨pre, post, hsp⟩ := h
  exact ⟨pre, post ++ t.data, by simp [hsp]⟩

/-- A pattern occurring in `t` still occurs after prepending on the left. -/
theorem strContains_append_left (s t pat : String) (h : strContains t pat) :
    strContains (s ++ t) pat := by
  obtain ⟨pre, post, hsp⟩ := h
  exact ⟨s.data ++ pre, post, by simp [hsp]⟩

/-- Every string contains itself. -/
theorem strContains_refl (pat : String) : strContains pat pat :=
  ⟨[], [], by simp⟩

/-! ## The claims -/

/-- Claim C1.  The claim states that `chunk_text_blocks` terminates even
when `overlap ≥ max_chars` because the step size is clamped to at least one
character.  The code has no such clamp: on the block `"abc"` with
`max_chars = 2`, `overlap = 2`, the next window start is
`max(0, end - overlap) = max(0, 0 + 2 - 2) = 0`, identical to the current
start, so the `while start < L` loop never exits: under every iteration
budget the instrumented loop still reports non-termination. -/
theorem claim1_no_min_step_loops_forever :
    ∀ fuel, (chunk_text_blocks ["abc".data] 2 2 fuel).2 = false := by
  intro fuel
  have hb : chunkBlock "abc".data 2 2 fuel = chunkLoop "abc".data 2 2 0 fuel := rfl
  have hstuck : (chunkLoop "abc".data 2 2 0 fuel).2 = false :=
    chunkLoop_stuck "abc".data 2 2 0 (by decide) (by decide) fuel
  simp [chunk_text_blocks, hb, hstuck]

/-- Claim C3.  The claim states that `max_chars ≤ 0` is rejected before any
processing.  The code performs no validation at all: with
`max_chars = 0`, `overlap = 0` and the non-empty block `"a"`, the length
test `len(block) <= max_chars` fails (1 > 0) and the windowing loop runs
with `end = start`, so `start` never advances and the loop never exits —
the code loops forever instead of failing fast. -/
theorem claim3_nonpositive_max_chars_loops_forever :
    ∀ fuel, (chunk_text_blocks ["a".data] 0 0 fuel).2 = false := by
  intro fuel
  have hb : chunkBlock "a".data 0 0 fuel = chunkLoop "a".data 0 0 0 fuel := rfl
  have hstuck : (chunkLoop "a".data 0 0 0 fuel).2 = false :=
    chunkLoop_stuck "a".data 0 0 0 (by decide) (by decide) fuel
  simp [chunk_text_blocks, hb, hstuck]

set_option maxRecDepth 10000 in
/-- Claim C4.  With `0 ≤ overlap < max_chars`, the window spans
`[start, start + max_chars)` recorded by the windowing loop cover every
character position of the block (first conjunct); the chunks
`chunk_text_blocks` emits are exactly the stripped slices at those spans
(second conjunct); and on a block of 1000 identical characters with
`max_chars = 800`, `overlap = 200` exactly two chunks are produced, the
slices at spans `[0, 800)` and `[600, 1400) ∩ [0, 1000) = [600, 1000)`
(third and fourth conjuncts). -/
theorem claim4_window_coverage :
    (∀ (L : Nat) (m o : Int) (fuel : Nat) (p : Int),
        0 ≤ o → o < m → (L : Int) ≤ (fuel : Int) → 0 ≤ p → p < (L : Int) →
        ∃ st ∈ (windowStarts L m o 0 fuel).1, st ≤ p ∧ p < st + m) ∧
    (∀ (b : List Char) (m o s : Int) (fuel : Nat),
        (chunkLoop b m o s fuel).1
          = ((windowStarts b.length m o s fuel).1).map
              (fun st => stripChars (pySlice b st (st + m)))) ∧
    chunk_text_blocks [List.replicate 1000 'A'] 800 200 1000
      = ([List.replicate 800 'A', List.replicate 400 'A'], true) ∧
    (windowStarts 1000 800 200 0 1000).1 = [0, 600] := by
  refine ⟨?_, ?_, by decide, by decide⟩
  · intro L m o fuel p ho hom hbud hp hpL
    exact windowStarts_cover L m o ho hom fuel 0 p le_rfl hp hpL (by omega)
  · intro b m o s fuel
    simp [chunkLoop_eq_windowStarts b m o fuel s]

/-- Claim C5.  Every chunk emitted by `chunk_text_blocks` has length at most
`max_chars`, for every block list, overlap and iteration budget, as long as
`max_chars` is positive: short blocks are emitted whole under the
`len(block) <= max_chars` test, and every window slice holds at most
`max_chars` characters before being stripped. -/
theorem claim5_chunk_length_bound (blocks : List (List Char)) (m o : Int)
    (fuel : Nat) (c : List Char) (hm : 0 < m)
    (hc : c ∈ (chunk_text_blocks blocks m o fuel).1) : (c.length : Int) ≤ m :=
  chunk_text_blocks_length_le blocks m o hm fuel c hc

/-- Witness for C5 at a concrete input: chunking `"ab"` with
`max_chars = 1`, `overlap = 0` emits the chunk `"a"`, of length at most 1. -/
theorem claim5_chunk_length_bound_witness : (("a".data : List Char).length : Int) ≤ 1 :=
  claim5_chunk_length_bound ["ab".data] 1 0 5 "a".data (by decide) (by decide)

/-- Claim C2, counterexample.  Two identical documents receive identical
TF-IDF vectors, so the query equal to them scores cosine similarity exactly
1 against both.  The claim predicts the tie is broken by ascending corpus
index, i.e. the hit list starts with index 0; the code reverses the
ascending argsort `[0, 1]` into `[1, 0]`, so index 1 comes first. -/
theorem claim2_counterexample :
    rTie.top_k "total revenue" 3 = [(1, 1), (0, 1)] ∧
      (rTie.top_k "total revenue" 3).head? ≠ some ((0 : Nat), (1 : ℚ)) := by
  decide

/-- Claim C2, amended.  Ties are NOT broken by ascending corpus index.
What the code guarantees: for every index array `np.argsort` may produce —
any listing of the positions in ascending score order, whatever the
unstable default sort did to tied positions — the selected hits are ordered
by non-increasing score (first conjunct), hence so is the model's `top_k`
(second conjunct); and in the concrete two-identical-chunk tie, where
numpy's sort is an insertion sort and matches the stable instance, the
chunk with the LARGER index appears first and is the one retained when the
`k = 1` cutoff falls inside the tie group (third and fourth conjuncts). -/
theorem claim2_amended_score_order :
    (∀ (sims : List ℚ) (idx : List Nat) (k : Nat),
        idx.Pairwise (fun i j => sims.getD i 0 ≤ sims.getD j 0) →
        (topKFromIdx sims idx k).Pairwise (fun a b => b.2 ≤ a.2)) ∧
    (∀ (r : Retriever) (q : String) (k : Nat),
        (r.top_k q k).Pairwise (fun a b => b.2 ≤ a.2)) ∧
    rTie.top_k "total revenue" 3 = [(1, 1), (0, 1)] ∧
    rTie.top_k "total revenue" 1 = [(1, 1)] := by
  refine ⟨topKFromIdx_score_mono, ?_, by decide, by decide⟩
  intro r q k
  unfold Retriever.top_k
  split
  · exact List.Pairwise.nil
  · exact topKFromIdx_score_mono _ _ _ (argsortAsc_score_sorted _)

/-- Claim C6.  Every hit `top_k` returns carries a strictly positive score:
the list comprehension keeps `(i, sims[i])` only under `sims[i] > 0`. -/
theorem claim6_zero_score_exclusion (r : Retriever) (q : String) (k : Nat)
    (p : Nat × ℚ) (hp : p ∈ r.top_k q k) : 0 < p.2 := by
  unfold Retriever.top_k at hp
  split at hp
  · simp at hp
  · exact (mem_topKFromSims _ _ _ hp).2.2

/-- Witness for C6 at a concrete input: on `rDemo` the single returned hit
is `(0, 1)` and its score is positive. -/
theorem claim6_zero_score_exclusion_witness : (0 : ℚ) < ((0 : Nat), (1 : ℚ)).2 :=
  claim6_zero_score_exclusion rDemo "total revenue" 1 (0, 1) (by decide)

/-- Claim C7.  On an empty corpus `top_k` returns the empty list without
error (the `vectorizer is None` guard), and whenever the hit list is empty
`answer_question` builds the prompt from the single synthetic context entry,
which contains the no-relevant-context marker (the source capitalises it as
"No relevant extracted context found"). -/
theorem claim7_empty_corpus_safety (r : Retriever) (q : String) (k : Nat)
    (docs : List String) (h : r.docs = []) :
    r.top_k q k = [] ∧
      promptOf r q docs k = some (make_prompt [fallbackMsg] q) ∧
      strContains (make_prompt [fallbackMsg] q) "No relevant extracted context found" := by
  have htop : r.top_k q k = [] := by
    unfold Retriever.top_k
    simp [h]
  refine ⟨htop, by simp [promptOf, htop, contextsOf], ?_⟩
  have h0 : strContains fallbackMsg "No relevant extracted context found" := by
    have hsplit : fallbackMsg = "No relevant extracted context found"
        ++ ". Provide the question and explain that no context exists." := by decide
    rw [hsplit]
    exact strContains_append_right _ _ _ (strContains_refl _)
  have hctx : String.intercalate "\n\n---\n\n" [fallbackMsg] = fallbackMsg := by decide
  unfold make_prompt
  dsimp only
  rw [if_neg (by decide : ¬(List.isEmpty [fallbackMsg] = true)), hctx]
  apply strContains_append_right
  apply strContains_append_right
  apply strContains_append_right
  exact strContains_append_left _ _ _ h0

/-- Witness for C7 at a concrete input: the empty-corpus retriever with
query "revenue". -/
theorem claim7_empty_corpus_safety_witness :
    rEmptyCorpus.top_k "revenue" 3 = [] ∧
      promptOf rEmptyCorpus "revenue" [] 3 = some (make_prompt [fallbackMsg] "revenue") ∧
      strContains (make_prompt [fallbackMsg] "revenue") "No relevant extracted context found" :=
  claim7_empty_corpus_safety rEmptyCorpus "revenue" 3 [] rfl

/-- Claim C8.  When the generation call raises the timeout error,
`answer_question` swallows it and returns the diagnostic string, which
contains the substring "timed out" (inside "Ollama call timed out.") and
the first 2000 characters of the constructed prompt. -/
theorem claim8_timeout_diagnostic (r : Retriever) (q : String) (docs : List String)
    (k : Nat) (prompt : String) (h : promptOf r q docs k = some prompt) :
    ∃ resp,
      answer_question r q docs (fun _ => call_ollama_cli OllamaRun.timedOut) k = some resp ∧
      strContains resp "timed out" ∧ strContains resp (prompt.take 2000) := by
  refine ⟨"ERROR calling Ollama: " ++ "Ollama call timed out."
      ++ "\n\nPrompt sent (truncated):\n" ++ prompt.take 2000, ?_, ?_, ?_⟩
  · simp [answer_question, h, call_ollama_cli]
  · have key : ("ERROR calling Ollama: " ++ "Ollama call timed out.")
        ++ "\n\nPrompt sent (truncated):\n"
        = ("ERROR calling Ollama: Ollama call " ++ "timed out")
          ++ ".\n\nPrompt sent (truncated):\n" := by decide
    rw [show "ERROR calling Ollama: " ++ "Ollama call timed out."
          ++ "\n\nPrompt sent (truncated):\n" ++ prompt.take 2000
        = (("ERROR calling Ollama: Ollama call " ++ "timed out")
          ++ ".\n\nPrompt sent (truncated):\n") ++ prompt.take 2000 from by rw [← key]]
    exact strContains_left _ _ _ _
  · exact strContains_suffix _ _

/-- Witness for C8 at a concrete input: the empty-corpus retriever, whose
prompt is the fallback prompt. -/
theorem claim8_timeout_diagnostic_witness :
    ∃ resp,
      answer_question rEmptyCorpus "q" []
        (fun _ => call_ollama_cli OllamaRun.timedOut) 3 = some resp ∧
      strContains resp "timed out" ∧
      strContains resp ((make_prompt [fallbackMsg] "q").take 2000) :=
  claim8_timeout_diagnostic rEmptyCorpus "q" [] 3 (make_prompt [fallbackMsg] "q") rfl

/-- Claim C9.  The numeric-token normalizer is idempotent: a second pass
over its output removes nothing further. -/
theorem claim9_normalize_idempotent (s : List Char) :
    normalize_numeric_tokens (normalize_numeric_tokens s) = normalize_numeric_tokens s :=
  normAux_idem s.length s le_rfl none

/-- Claim C10.  Every hit position returned by `top_k` is a valid position
of the retriever's document list; consequently, when `answer_question` is
called with the same document list the retriever was built from, the
`docs[idx]` lookups all succeed and an answer string is always produced. -/
theorem claim10_index_safety (r : Retriever) (q : String) (k : Nat)
    (p : Nat × ℚ) (hp : p ∈ r.top_k q k) :
    p.1 < r.docs.length ∧
      ∀ gen, (answer_question r q r.docs gen k).isSome = true := by
  refine ⟨top_k_index_lt r q k p hp, ?_⟩
  intro gen
  obtain ⟨l, hl⟩ := contextsOf_isSome (r.top_k q k) r.docs
    (fun pp hpp => top_k_index_lt r q k pp hpp)
  simp [answer_question, promptOf, hl]

/-- Witness for C10 at a concrete input: on `rDemo` the hit `(0, 1)` indexes
into the two-document list, and the pipeline produces an answer. -/
theorem claim10_index_safety_witness :
    ((0 : Nat), (1 : ℚ)).1 < rDemo.docs.length ∧
      (answer_question rDemo "total revenue" rDemo.docs
        (fun _ => Except.ok "fine") 1).isSome = true := by
  have h := claim10_index_safety rDemo "total revenue" 1 ((0 : Nat), (1 : ℚ)) (by decide)
  exact ⟨h.1, h.2 _⟩

end FinDoc
